import Mathlib

/-
Verification of the dependency-spec parsing and classification engine of
conda2pixi (src/conda2pixi.py) against its natural-language specification.

The Python source is shallowly embedded below:
  * strings are modelled as Lean `String` / `List Char` (the regex character
    class `[\w-]` is modelled by `wordChar`, restricted to its ASCII portion);
  * Python dicts are modelled as insertion-ordered association lists with
    unique keys (`dictGet`, `dictRemove`, `dictPop`, `dictInsert` mirror
    `d[k]`, `del`/`pop` removal and `d[k] = v` assignment);
  * `raise SystemExit(...)` and the uncaught `KeyError` raised by
    `defaultdict.pop` on a missing key are modelled by `Except Err`;
  * the YAML scalars that can appear in a dependency list are modelled by
    `Entry` (a string, a mapping, or a value of any other type, recorded by
    its Python type name, which is all `split_by_type` inspects).
-/

namespace conda2pixi

/-- A YAML value that can appear as the value of a key inside a mapping
entry of a dependency list: a string, a list of strings (the shape of a
`pip:` value), or an integer. -/
inductive YVal where
  | s (v : String)
  | l (v : List String)
  | i (v : Int)
  deriving DecidableEq, Repr

/-- A mapping entry of a dependency list: a Python dict, modelled as an
insertion-ordered association list with unique keys. -/
abbrev YDict := List (String × YVal)

/-- One entry of a raw dependency list: a plain string, a mapping, or a
value of any other Python type, recorded by its type name (which is the
only thing `split_by_type` inspects). -/
inductive Entry where
  | str (s : String)
  | dict (d : YDict)
  | other (tyName : String)
  deriving DecidableEq, Repr

/-- `type(i).__name__` for a dependency-list entry. -/
def typeName : Entry → String
  | .str _ => "str"
  | .dict _ => "dict"
  | .other t => t

/-- The failure modes of the core: each `raise SystemExit(f"...")` of the
source, plus the uncaught `KeyError` that `defaultdict.pop` raises on a
missing key (`__missing__` is only invoked by `__getitem__`, never by
`pop`). -/
inductive Err where
  | malformedSpec (dep : String)
  | keyError (k : String)
  | wrongTypes (buckets : List (String × List Entry))
  | tooManyPipEntries (d : YDict)
  | tooManyDicts (ds : List YDict)
  deriving DecidableEq, Repr

instance exceptDecEq {ε α : Type} [DecidableEq ε] [DecidableEq α] :
    DecidableEq (Except ε α) := fun a b =>
  match a, b with
  | .error e, .error f =>
    if h : e = f then isTrue (congrArg Except.error h)
    else isFalse (fun hh => h (Except.error.inj hh))
  | .error _, .ok _ => isFalse (fun hh => Except.noConfusion hh)
  | .ok _, .error _ => isFalse (fun hh => Except.noConfusion hh)
  | .ok x, .ok y =>
    if h : x = y then isTrue (congrArg Except.ok h)
    else isFalse (fun hh => h (Except.ok.inj hh))

/-! ## The Spec Parser (PATTERN_SPEC, parse_dep, convert_single_equals) -/

/-- The character class `[\w-]` of `PATTERN_SPEC`, restricted to its ASCII
portion: alphanumerics, underscore, hyphen. -/
def wordChar (c : Char) : Bool := c.isAlphanum || c == '_' || c == '-'

/-- Python `version.split(".")` on a character list: split at every
occurrence of `sep`; the empty string splits to `[""]`. -/
def splitChar (sep : Char) : List Char → List (List Char)
  | [] => [[]]
  | c :: cs =>
    if c == sep then [] :: splitChar sep cs
    else
      match splitChar sep cs with
      | [] => [[c]]
      | h :: t => (c :: h) :: t

/-- `PATTERN_SPEC.match(dep)` for `PATTERN_SPEC = ^(?P<name>[\w-]*)(?P<version>.*)$`:
`.` does not match a newline and `$` also matches just before a final
newline, so the match succeeds exactly when the input, after discarding at
most one trailing newline, is newline-free; the name group is then the
maximal leading run of word characters and the version group is the rest. -/
def PATTERN_SPEC_match (cs : List Char) : Option (List Char × List Char) :=
  let core := if cs.getLast? = some '\n' then cs.dropLast else cs
  if core.all (fun c => c != '\n') then
    some (core.takeWhile wordChar, core.dropWhile wordChar)
  else none

/-- `convert_single_equals` (src/conda2pixi.py lines 148-157): strip the
leading `=`; if the remainder still contains `=`, return the input
unchanged; otherwise split on `.`, append a single `"*"` part when fewer
than 3 parts are present, and rejoin with `.`. -/
def convert_single_equals (spec : List Char) : List Char :=
  let version := spec.drop 1
  if version.contains '=' then spec
  else
    let parts := splitChar '.' version
    let parts := if parts.length < 3 then parts ++ [['*']] else parts
    List.intercalate ['.'] parts

/-- `parse_dep` (src/conda2pixi.py lines 132-145): match `PATTERN_SPEC`,
fail with `invalid package version spec` when it does not match, replace an
empty version by `"*"`, and rewrite a version starting with a single `=`
(not `==`) through `convert_single_equals`. -/
def parse_dep (dep : String) : Except Err (String × String) :=
  match PATTERN_SPEC_match dep.data with
  | none => .error (.malformedSpec dep)
  | some (n, v) =>
    let version := if v.isEmpty then ['*'] else v
    let version :=
      if ['='].isPrefixOf version && !(['=', '='].isPrefixOf version) then
        convert_single_equals version
      else version
    .ok (⟨n⟩, ⟨version⟩)

/-! ## Python dicts as insertion-ordered association lists -/

/-- Membership test `k in d`. -/
def dictMem {α : Type} (m : List (String × α)) (k : String) : Bool :=
  m.any (fun p => p.1 == k)

/-- Lookup `d[k]`, as an `Option`. -/
def dictGet {α : Type} (m : List (String × α)) (k : String) : Option α :=
  (m.find? (fun p => p.1 == k)).map (·.2)

/-- Removal of key `k` (keys are unique, so filtering removes at most the
one binding). -/
def dictRemove {α : Type} (m : List (String × α)) (k : String) : List (String × α) :=
  m.filter (fun p => p.1 != k)

/-- `d.pop(k)`: the value under `k` together with the dict without `k`, or
`none` (a `KeyError`) when `k` is absent. -/
def dictPop {α : Type} (m : List (String × α)) (k : String) :
    Option (α × List (String × α)) :=
  match dictGet m k with
  | some v => some (v, dictRemove m k)
  | none => none

/-- Assignment `d[k] = v`: replace in place when the key exists (keeping
its position), otherwise append at the end. -/
def dictInsert {α : Type} (m : List (String × α)) (k : String) (v : α) :
    List (String × α) :=
  if dictMem m k then m.map (fun p => if p.1 == k then (p.1, v) else p)
  else m ++ [(k, v)]

/-! ## The Type Classifier (split_by_type, split_conda_pip_raw) -/

/-- `res[tn].append(i)` on a `defaultdict(list)`: append to the bucket of
key `k`, creating the bucket at the end when it does not exist yet. -/
def bucketAdd (m : List (String × List Entry)) (k : String) (e : Entry) :
    List (String × List Entry) :=
  if dictMem m k then m.map (fun p => if p.1 == k then (p.1, p.2 ++ [e]) else p)
  else m ++ [(k, [e])]

/-- `split_by_type` (src/conda2pixi.py lines 116-121): bucket the entries
by Python type name, buckets ordered by first occurrence. -/
def split_by_type (seq : List Entry) : List (String × List Entry) :=
  seq.foldl (fun res i => bucketAdd res (typeName i) i) []

/-- The string payloads of a bucket of `.str` entries (the `"str"` bucket
holds the strings themselves in Python). -/
def strsOnly (es : List Entry) : List String :=
  es.filterMap (fun e => match e with | .str s => some s | _ => none)

/-- The dict payloads of a bucket of `.dict` entries. -/
def dictsOnly (es : List Entry) : List YDict :=
  es.filterMap (fun e => match e with | .dict d => some d | _ => none)

/-- The `for d in dicts:` loop of `split_conda_pip_raw`: each dict carrying
`"pip"` overwrites `pip` with its value and must then be empty, every other
dict is appended to `remainder`. -/
def pip_loop (pip : YVal) (remainder : List YDict) :
    List YDict → Except Err (YVal × List YDict)
  | [] => .ok (pip, remainder)
  | d :: ds =>
    match dictPop d "pip" with
    | some (v, d') =>
      if d' ≠ [] then .error (.tooManyPipEntries d')
      else pip_loop v remainder ds
    | none => pip_loop pip (remainder ++ [d]) ds

/-- `split_conda_pip_raw` (src/conda2pixi.py lines 92-113): pop the `"str"`
and `"dict"` buckets (a missing bucket is a `KeyError`, since
`defaultdict.pop` does not consult the default factory), fail on leftover
buckets, run the pip loop, fail on leftover non-pip dicts, and return the
string entries together with the pip value (initially the empty list). -/
def split_conda_pip_raw (deps : List Entry) : Except Err (List String × YVal) :=
  let deps_by_type := split_by_type deps
  match dictPop deps_by_type "str" with
  | none => .error (.keyError "str")
  | some (condaEntries, rest1) =>
    match dictPop rest1 "dict" with
    | none => .error (.keyError "dict")
    | some (dictEntries, rest2) =>
      if rest2 ≠ [] then .error (.wrongTypes rest2)
      else
        match pip_loop (.l []) [] (dictsOnly dictEntries) with
        | .error e => .error e
        | .ok (pip, remainder) =>
          if remainder ≠ [] then .error (.tooManyDicts remainder)
          else .ok (strsOnly condaEntries, pip)

/-! ## The Manifest Assembler (collect_and_convert, build_pixi_toml) -/

/-- A Document Result: the per-document data the assembler folds over —
the derived name, the channel list, and the parsed native and pip
dependency mappings, as produced by the (out-of-scope) loader and by the
classifier and parser above. -/
structure DocResult where
  name : String
  chans : List String
  conda : List (String × String)
  pip : List (String × String)
  deriving DecidableEq, Repr

/-- One feature table entry: `{"dependencies": conda, "pypi-dependencies": pip}`. -/
structure Feature where
  dependencies : List (String × String)
  pypi_dependencies : List (String × String)
  deriving DecidableEq, Repr

/-- One iteration of the `for fn in fns:` loop of `collect_and_convert`
(src/conda2pixi.py lines 56-65): extend the channel accumulator and assign
the environment and feature entries under the document name. -/
def ccStep (acc : List String × List (String × List String) × List (String × Feature))
    (d : DocResult) :
    List String × List (String × List String) × List (String × Feature) :=
  (acc.1 ++ d.chans,
   dictInsert acc.2.1 d.name [d.name],
   dictInsert acc.2.2 d.name ⟨d.conda, d.pip⟩)

/-- `collect_and_convert` (src/conda2pixi.py lines 51-68), with the
document loading and dependency splitting of the loop body abstracted to
the given Document Results: fold the per-document step, then replace the
channel accumulator by `sorted(set(all_chans)) or ["conda-forge"]`. -/
def collect_and_convert (docs : List DocResult) :
    List String × List (String × List String) × List (String × Feature) :=
  let acc := docs.foldl ccStep ([], [], [])
  let chans := List.insertionSort (· ≤ ·) acc.1.dedup
  (if chans = [] then ["conda-forge"] else chans, acc.2.1, acc.2.2)

/-- The `workspace` table of the output. -/
structure Workspace where
  name : String
  channels : List String
  platforms : List String
  deriving DecidableEq, Repr

/-- The full output structure. -/
structure PixiToml where
  workspace : Workspace
  environments : List (String × List String)
  feature : List (String × Feature)
  deriving DecidableEq, Repr

/-- `build_pixi_toml` (src/conda2pixi.py lines 173-182). -/
def build_pixi_toml (name : String) (channels : List String)
    (environments : List (String × List String))
    (feature : List (String × Feature)) : PixiToml :=
  ⟨⟨name, channels, ["linux-64"]⟩, environments, feature⟩

end conda2pixi

namespace conda2pixi

/-- The bucket of key `t`, the empty list when the key is absent. -/
def bucketOf (m : List (String × List Entry)) (t : String) : List Entry :=
  (dictGet m t).getD []

/-- Entry is a plain string. -/
def isStr : Entry → Bool
  | .str _ => true
  | _ => false

/-- Entry is a mapping. -/
def isDict : Entry → Bool
  | .dict _ => true
  | _ => false

/-- A mapping whose sole binding is the pip marker key. -/
def isPipOnlyDict : YDict → Bool
  | [(k, _)] => k == "pip"
  | _ => false

/-! ## Helper lemmas -/

theorem mem_of_getLast?_eq {α : Type} {l : List α} {a : α}
    (h : l.getLast? = some a) : a ∈ l := by
  induction l with
  | nil => simp [List.getLast?] at h
  | cons b l ih =>
    cases l with
    | nil => simp [List.getLast?] at h; simp [h]
    | cons c l2 =>
      rw [List.getLast?_cons_cons] at h
      exact List.mem_cons_of_mem b (ih h)

theorem contains_eq_false_of_all_ne {l : List Char} {a : Char}
    (h : l.all (fun c => c != a) = true) : l.contains a = false := by
  induction l with
  | nil => rfl
  | cons c cs ih =>
    rw [List.all_cons, Bool.and_eq_true] at h
    rw [List.contains_cons, ih h.2, Bool.or_false]
    have := h.1
    rw [bne_iff_ne] at this
    simp [beq_eq_false_iff_ne, this]
    exact fun hh => this hh.symm

theorem takeWhile_append_cons {α : Type} {p : α → Bool} :
    ∀ (l₁ : List α) (x : α) (l₂ : List α),
      l₁.all p = true → p x = false →
      (l₁ ++ x :: l₂).takeWhile p = l₁
  | [], x, l₂, _, hx => by simp [List.takeWhile_cons, hx]
  | c :: cs, x, l₂, h, hx => by
    rw [List.all_cons, Bool.and_eq_true] at h
    simp [List.takeWhile_cons, h.1, takeWhile_append_cons cs x l₂ h.2 hx]

theorem dropWhile_append_cons {α : Type} {p : α → Bool} :
    ∀ (l₁ : List α) (x : α) (l₂ : List α),
      l₁.all p = true → p x = false →
      (l₁ ++ x :: l₂).dropWhile p = x :: l₂
  | [], x, l₂, _, hx => by simp [List.dropWhile_cons, hx]
  | c :: cs, x, l₂, h, hx => by
    rw [List.all_cons, Bool.and_eq_true] at h
    simp [List.dropWhile_cons, h.1, dropWhile_append_cons cs x l₂ h.2 hx]

theorem takeWhile_all_eq {α : Type} {p : α → Bool} {l : List α}
    (h : l.all p = true) : l.takeWhile p = l :=
  List.takeWhile_eq_self_iff.2 (List.all_eq_true.1 h)

theorem dropWhile_all_nil {α : Type} {p : α → Bool} {l : List α}
    (h : l.all p = true) : l.dropWhile p = [] := by
  induction l with
  | nil => rfl
  | cons c cs ih =>
    rw [List.all_cons, Bool.and_eq_true] at h
    simp [List.dropWhile_cons, h.1, ih h.2]

/-- When the input is newline-free, `PATTERN_SPEC` matches and splits it at
the end of the maximal leading run of word characters. -/
theorem PATTERN_SPEC_match_of_no_nl (cs : List Char)
    (h : cs.all (fun c => c != '\n') = true) :
    PATTERN_SPEC_match cs = some (cs.takeWhile wordChar, cs.dropWhile wordChar) := by
  have hlast : ¬ cs.getLast? = some '\n' := by
    intro hc
    have hm := mem_of_getLast?_eq hc
    have := List.all_eq_true.1 h _ hm
    simp at this
  unfold PATTERN_SPEC_match
  rw [if_neg hlast, if_pos h]

/-- `PATTERN_SPEC` on a token built from an all-word-character name and a
constraint that is empty or starts with a non-word character: the name
group is the name and the version group is the constraint. -/
theorem PATTERN_SPEC_match_split (name v : List Char)
    (hn : name.all wordChar = true)
    (hnl : (name ++ v).all (fun c => c != '\n') = true)
    (hv : ∀ c cs2, v = c :: cs2 → wordChar c = false) :
    PATTERN_SPEC_match (name ++ v) = some (name, v) := by
  rw [PATTERN_SPEC_match_of_no_nl _ hnl]
  cases v with
  | nil =>
    rw [List.append_nil, takeWhile_all_eq hn, dropWhile_all_nil hn]
  | cons c cs2 =>
    rw [takeWhile_append_cons name c cs2 hn (hv c cs2 rfl),
        dropWhile_append_cons name c cs2 hn (hv c cs2 rfl)]

end conda2pixi

namespace conda2pixi

theorem all_takeWhile {α : Type} (p : α → Bool) (l : List α) :
    (l.takeWhile p).all p = true := by
  induction l with
  | nil => rfl
  | cons c cs ih =>
    rw [List.takeWhile_cons]
    split
    · rw [List.all_cons]
      simp_all
    · rfl

theorem PATTERN_SPEC_match_name_all {cs a b : List Char}
    (h : PATTERN_SPEC_match cs = some (a, b)) : a.all wordChar = true := by
  unfold PATTERN_SPEC_match at h
  dsimp only at h
  split at h
  · split at h
    · injection h with h1
      injection h1 with h2 h3
      rw [← h2]
      exact all_takeWhile wordChar _
    · cases h
  · split at h
    · injection h with h1
      injection h1 with h2 h3
      rw [← h2]
      exact all_takeWhile wordChar _
    · cases h

theorem wordChar_ne_nl {c : Char} (h : wordChar c = true) : (c != '\n') = true := by
  rw [bne_iff_ne]
  intro e
  subst e
  exact absurd h (by decide)

/-- Word characters are never newlines, entrywise. -/
theorem all_ne_nl_of_all_word {l : List Char} (h : l.all wordChar = true) :
    l.all (fun c => c != '\n') = true := by
  rw [List.all_eq_true] at h ⊢
  exact fun x hx => wordChar_ne_nl (h x hx)

/-- Claim C9: for every input string containing no newline character,
`parse_dep` succeeds; the MalformedSpec branch is unreachable on such input
because the name group may match zero characters and the version group
greedily consumes the remainder. -/
theorem C9_thm (dep : String)
    (h : dep.data.all (fun c => c != '\n') = true) :
    (parse_dep dep).isOk = true := by
  unfold parse_dep
  rw [PATTERN_SPEC_match_of_no_nl dep.data h]
  rfl

/-- Claim C3 (amended): for every dependency token on which `parse_dep`
succeeds, the returned package name consists only of word characters and
hyphens; it is however NOT necessarily non-empty, since the name group of
`PATTERN_SPEC` matches zero or more characters. -/
theorem C3_thm (dep n v : String)
    (h : parse_dep dep = .ok (n, v)) : n.data.all wordChar = true := by
  unfold parse_dep at h
  cases hm : PATTERN_SPEC_match dep.data with
  | none => rw [hm] at h; cases h
  | some p =>
    obtain ⟨a, b⟩ := p
    rw [hm] at h
    dsimp only at h
    injection h with h1
    injection h1 with h2 h3
    rw [← h2]
    exact PATTERN_SPEC_match_name_all hm

end conda2pixi

namespace conda2pixi

/-- Claim C1 (amended): for a dependency token whose constraint starts with a
single `=` (not `==`) and whose remainder contains no further `=`, `parse_dep`
strips the leading `=`, splits the remainder on `.`, appends a SINGLE trailing
`*` component when fewer than 3 dot-separated components are present (the
source uses a one-shot `if`, not a loop, so `numpy=1` maps to `1.*`, not
`1.*.*` as the claim stated), and leaves a version with 3 or more components
as-is. -/
theorem C1_thm (name rest : List Char)
    (hn : name.all wordChar = true)
    (hr : rest.all (fun c => c != '=' && c != '\n') = true) :
    parse_dep ⟨name ++ '=' :: rest⟩ =
      .ok (⟨name⟩, ⟨List.intercalate ['.']
        (if (splitChar '.' rest).length < 3 then splitChar '.' rest ++ [['*']]
         else splitChar '.' rest)⟩) := by
  simp only [List.all_eq_true, Bool.and_eq_true] at hr
  have hre : rest.all (fun c => c != '=') = true := by
    rw [List.all_eq_true]
    exact fun x hx => (hr x hx).1
  have hra : rest.all (fun c => c != '\n') = true := by
    rw [List.all_eq_true]
    exact fun x hx => (hr x hx).2
  have hnl : (name ++ '=' :: rest).all (fun c => c != '\n') = true := by
    rw [List.all_append, List.all_cons, all_ne_nl_of_all_word hn, hra]
    rfl
  have hm : PATTERN_SPEC_match (name ++ '=' :: rest) = some (name, '=' :: rest) := by
    refine PATTERN_SPEC_match_split name ('=' :: rest) hn hnl ?_
    intro c cs2 hc
    injection hc with h1 h2
    rw [← h1]
    decide
  have g2 : ['=', '='].isPrefixOf ('=' :: rest) = false := by
    cases hrest : rest with
    | nil => decide
    | cons c cs2 =>
      have hcne : (c != '=') = true := by
        subst hrest
        rw [List.all_cons, Bool.and_eq_true] at hre
        exact hre.1
      rw [bne_iff_ne] at hcne
      simp [List.isPrefixOf]
      intro h
      exact absurd h.symm hcne
  unfold parse_dep
  rw [show (String.mk (name ++ '=' :: rest)).data = name ++ '=' :: rest from rfl, hm]
  dsimp only
  rw [show (('=' :: rest).isEmpty) = false from rfl]
  rw [if_neg (fun hh => Bool.false_ne_true hh)]
  rw [show (['='].isPrefixOf ('=' :: rest)) = true by simp [List.isPrefixOf], g2]
  rw [if_pos (by decide : (true && !false) = true)]
  unfold convert_single_equals
  rw [show ('=' :: rest).drop 1 = rest from rfl]
  dsimp only
  rw [show rest.contains '=' = false from contains_eq_false_of_all_ne hre]
  rw [if_neg (fun hh => Bool.false_ne_true hh)]

end conda2pixi

namespace conda2pixi

theorem parse_dep_compound (name rest : List Char)
    (hn : name.all wordChar = true)
    (hra : rest.all (fun c => c != '\n') = true)
    (hss : ['='].isPrefixOf rest = false)
    (hc : rest.contains '=' = true) :
    parse_dep ⟨name ++ '=' :: rest⟩ = .ok (⟨name⟩, ⟨'=' :: rest⟩) := by
  have hnl : (name ++ '=' :: rest).all (fun c => c != '\n') = true := by
    rw [List.all_append, List.all_cons, all_ne_nl_of_all_word hn, hra]
    rfl
  have hm : PATTERN_SPEC_match (name ++ '=' :: rest) = some (name, '=' :: rest) := by
    refine PATTERN_SPEC_match_split name ('=' :: rest) hn hnl ?_
    intro c cs2 hcs
    injection hcs with h1 h2
    rw [← h1]
    decide
  have g2 : ['=', '='].isPrefixOf ('=' :: rest) = false := by
    cases rest with
    | nil => decide
    | cons c cs2 =>
      simp only [List.isPrefixOf] at hss ⊢
      simpa using hss
  unfold parse_dep
  rw [show (String.mk (name ++ '=' :: rest)).data = name ++ '=' :: rest from rfl, hm]
  dsimp only
  rw [show (('=' :: rest).isEmpty) = false from rfl]
  rw [if_neg (fun hh => Bool.false_ne_true hh)]
  rw [show (['='].isPrefixOf ('=' :: rest)) = true by simp [List.isPrefixOf], g2]
  rw [if_pos (by decide : (true && !false) = true)]
  unfold convert_single_equals
  rw [show ('=' :: rest).drop 1 = rest from rfl]
  dsimp only
  rw [hc]
  rw [if_pos rfl]

theorem parse_dep_passthrough (name v : List Char)
    (hn : name.all wordChar = true)
    (hne : v.isEmpty = false)
    (hhead : ∀ c cs2, v = c :: cs2 → wordChar c = false)
    (hnl : v.all (fun c => c != '\n') = true)
    (hguard : (['='].isPrefixOf v && !(['=', '='].isPrefixOf v)) = false) :
    parse_dep ⟨name ++ v⟩ = .ok (⟨name⟩, ⟨v⟩) := by
  have hanl : (name ++ v).all (fun c => c != '\n') = true := by
    rw [List.all_append, all_ne_nl_of_all_word hn, hnl]
    rfl
  have hm : PATTERN_SPEC_match (name ++ v) = some (name, v) :=
    PATTERN_SPEC_match_split name v hn hanl hhead
  unfold parse_dep
  rw [show (String.mk (name ++ v)).data = name ++ v from rfl, hm]
  dsimp only
  rw [hne]
  rw [if_neg (fun hh => Bool.false_ne_true hh)]
  rw [hguard]
  rw [if_neg (fun hh => Bool.false_ne_true hh)]

/-- Claim C6: a constraint starting with a single `=` whose remainder contains
another `=` (compound constraint or build-number suffix) passes through
`parse_dep` untouched, and a non-empty constraint that does not start with a
bare single `=` (for example `>=1.0` or `==1.0`) passes through unchanged. -/
theorem C6_thm :
    (∀ (name rest : List Char),
      name.all wordChar = true →
      rest.all (fun c => c != '\n') = true →
      ['='].isPrefixOf rest = false →
      rest.contains '=' = true →
      parse_dep ⟨name ++ '=' :: rest⟩ = .ok (⟨name⟩, ⟨'=' :: rest⟩)) ∧
    (∀ (name v : List Char),
      name.all wordChar = true →
      v.isEmpty = false →
      (∀ c cs2, v = c :: cs2 → wordChar c = false) →
      v.all (fun c => c != '\n') = true →
      (['='].isPrefixOf v && !(['=', '='].isPrefixOf v)) = false →
      parse_dep ⟨name ++ v⟩ = .ok (⟨name⟩, ⟨v⟩)) :=
  ⟨parse_dep_compound, parse_dep_passthrough⟩

/-- Claim C6 witness: the theorem applied to the tokens `numpy=1.2,<=2` and
`numpy>=1.0`. -/
theorem C6_witness :
    parse_dep "numpy=1.2,<=2" = .ok ("numpy", "=1.2,<=2") ∧
    parse_dep "numpy>=1.0" = .ok ("numpy", ">=1.0") := by
  constructor
  · have h := C6_thm.1 "numpy".data "1.2,<=2".data (by decide) (by decide) (by decide) (by decide)
    exact h.trans (by decide)
  · have h := C6_thm.2 "numpy".data ">=1.0".data (by decide) (by decide)
      (by intro c cs2 hcs; injection hcs with h1 h2; rw [← h1]; decide) (by decide) (by decide)
    exact h.trans (by decide)

/-- Claim C1 witness: the amended theorem applied to the token `numpy=1.2`
yields `("numpy", "1.2.*")`. -/
theorem C1_witness : parse_dep "numpy=1.2" = .ok ("numpy", "1.2.*") := by
  have h := C1_thm "numpy".data "1.2".data (by decide) (by decide)
  exact h.trans (by decide)

/-- Claim C1 counterexample: `parse_dep "numpy=1"` returns `("numpy", "1.*")`
and not `("numpy", "1.*.*")` as the claim states. -/
theorem C1_counterexample :
    parse_dep "numpy=1" = .ok ("numpy", "1.*") ∧
    parse_dep "numpy=1" ≠ .ok ("numpy", "1.*.*") := by decide

/-- Claim C3 counterexample: the claim also asserts the parsed name is always
non-empty, but `parse_dep ""` succeeds returning the empty name. -/
theorem C3_counterexample : ¬ (∀ (dep n v : String), parse_dep dep = .ok (n, v) → n ≠ "") := by
  intro h
  exact h "" "" "*" (by decide) rfl

/-- Claim C3 witness: the amended theorem applied to the token `numpy`. -/
theorem C3_witness : ("numpy" : String).data.all wordChar = true :=
  C3_thm "numpy" "numpy" "*" (by decide)

/-- Claim C9 witness: the theorem applied to the token `numpy>=1.0`. -/
theorem C9_witness : (parse_dep "numpy>=1.0").isOk = true :=
  C9_thm "numpy>=1.0" (by decide)

end conda2pixi

namespace conda2pixi

/-! ## Association-list lemmas -/

theorem dictGet_nil {α : Type} (t : String) :
    dictGet ([] : List (String × α)) t = none := rfl

theorem dictGet_cons {α : Type} (pk : String) (pv : α) (m : List (String × α)) (t : String) :
    dictGet ((pk, pv) :: m) t = if pk = t then some pv else dictGet m t := by
  by_cases h : pk = t
  · simp [dictGet, List.find?_cons, h]
  · simp [dictGet, List.find?_cons, h]

theorem dictGet_eq_none_of_not_mem {α : Type} {m : List (String × α)} {k : String}
    (h : dictMem m k = false) : dictGet m k = none := by
  unfold dictMem at h
  rw [List.any_eq_false] at h
  unfold dictGet
  rw [List.find?_eq_none.2 (fun x hx hpx => h x hx hpx)]
  rfl

theorem dictGet_isSome_of_mem {α : Type} {m : List (String × α)} {k : String}
    (h : dictMem m k = true) : (dictGet m k).isSome = true := by
  unfold dictMem at h
  rw [List.any_eq_true] at h
  obtain ⟨x, hx, hp⟩ := h
  unfold dictGet
  cases o : List.find? (fun p => p.1 == k) m with
  | none => rw [List.find?_eq_none] at o; exact absurd hp (o x hx)
  | some p => rfl

theorem dictGet_mapUpdate {α : Type} (m : List (String × α)) (k t : String) (F : α → α) :
    dictGet (m.map (fun p => if p.1 == k then (p.1, F p.2) else p)) t =
      if t = k then (dictGet m t).map F else dictGet m t := by
  induction m with
  | nil => by_cases h : t = k <;> simp [dictGet_nil, h]
  | cons p m ih =>
    obtain ⟨pk, pv⟩ := p
    rw [List.map_cons]
    dsimp only
    by_cases hpk : pk = k
    · rw [if_pos (show (pk == k) = true by simp [hpk])]
      by_cases hpt : pk = t
      · subst hpt
        subst hpk
        simp [dictGet_cons]
      · subst hpk
        simp only [dictGet_cons]
        simp only [if_neg hpt]
        rw [ih]
    · rw [if_neg (show ¬ ((pk == k) = true) by simp [hpk])]
      by_cases hpt : pk = t
      · subst hpt
        simp [dictGet_cons, hpk]
      · simp only [dictGet_cons]
        simp only [if_neg hpt]
        rw [ih]

theorem dictGet_append_single {α : Type} (m : List (String × α)) (k t : String) (v : α) :
    dictGet (m ++ [(k, v)]) t =
      (dictGet m t).or (if k = t then some v else none) := by
  unfold dictGet
  rw [List.find?_append]
  cases h : List.find? (fun p => p.1 == t) m with
  | some p => simp
  | none =>
    by_cases htk : k = t <;> simp [List.find?_cons, htk]

theorem dictGet_dictInsert_self {α : Type} (m : List (String × α)) (k : String) (v : α) :
    dictGet (dictInsert m k v) k = some v := by
  unfold dictInsert
  by_cases h : dictMem m k = true
  · rw [if_pos h, dictGet_mapUpdate m k k (fun _ => v), if_pos rfl]
    cases o : dictGet m k with
    | none =>
      have hs := dictGet_isSome_of_mem h
      rw [o] at hs
      simp at hs
    | some w => rfl
  · rw [if_neg h, dictGet_append_single, if_pos rfl,
        dictGet_eq_none_of_not_mem (Bool.eq_false_iff.2 h)]
    rfl

theorem dictGet_dictInsert_ne {α : Type} (m : List (String × α)) (k t : String) (v : α)
    (h : t ≠ k) : dictGet (dictInsert m k v) t = dictGet m t := by
  unfold dictInsert
  by_cases hm : dictMem m k = true
  · rw [if_pos hm, dictGet_mapUpdate m k t (fun _ => v), if_neg h]
  · rw [if_neg hm, dictGet_append_single, if_neg (fun hh => h hh.symm), Option.or_none]

end conda2pixi

namespace conda2pixi

theorem dictGet_bucketAdd (m : List (String × List Entry)) (k t : String) (e : Entry) :
    dictGet (bucketAdd m k e) t =
      if t = k then some (bucketOf m t ++ [e]) else dictGet m t := by
  unfold bucketAdd
  by_cases hm : dictMem m k = true
  · rw [if_pos hm, dictGet_mapUpdate m k t (fun l => l ++ [e])]
    by_cases htk : t = k
    · subst htk
      rw [if_pos rfl, if_pos rfl]
      cases o : dictGet m t with
      | none =>
        have hs := dictGet_isSome_of_mem hm
        rw [o] at hs
        simp at hs
      | some w => simp [bucketOf, o]
    · rw [if_neg htk, if_neg htk]
  · rw [if_neg hm, dictGet_append_single]
    by_cases htk : t = k
    · subst htk
      rw [if_pos rfl, if_pos rfl,
          dictGet_eq_none_of_not_mem (Bool.eq_false_iff.2 hm)]
      simp [bucketOf, dictGet_eq_none_of_not_mem (Bool.eq_false_iff.2 hm)]
    · rw [if_neg (fun hh => htk hh.symm), Option.or_none, if_neg htk]

theorem foldl_bucketAdd_dictGet :
    ∀ (deps : List Entry) (acc : List (String × List Entry)) (t : String),
      dictGet (deps.foldl (fun res i => bucketAdd res (typeName i) i) acc) t =
        if deps.any (fun e => typeName e == t) = true
        then some (bucketOf acc t ++ deps.filter (fun e => typeName e == t))
        else dictGet acc t
  | [], acc, t => by simp
  | e :: deps, acc, t => by
    rw [List.foldl_cons, foldl_bucketAdd_dictGet deps _ t, List.any_cons, List.filter_cons]
    by_cases he : typeName e = t
    · have hb : bucketOf (bucketAdd acc (typeName e) e) t = bucketOf acc t ++ [e] := by
        unfold bucketOf
        rw [dictGet_bucketAdd, if_pos he.symm]
        rfl
      by_cases hd : deps.any (fun e => typeName e == t) = true
      · rw [if_pos hd, hb]
        simp [he, hd, List.append_assoc]
      · rw [if_neg hd, dictGet_bucketAdd, if_pos he.symm]
        have hfil : deps.filter (fun e => typeName e == t) = [] :=
          List.filter_eq_nil_iff.2 (by
            intro a ha hpa
            exact hd (List.any_eq_true.2 ⟨a, ha, hpa⟩))
        simp [he, hfil]
    · have hg : dictGet (bucketAdd acc (typeName e) e) t = dictGet acc t := by
        rw [dictGet_bucketAdd, if_neg (fun hh => he hh.symm)]
      have hb : bucketOf (bucketAdd acc (typeName e) e) t = bucketOf acc t := by
        unfold bucketOf
        rw [hg]
      rw [hg, hb]
      simp [show (typeName e == t) = false by simp [he]]

theorem bucketAdd_keys (p : String → Bool) (m : List (String × List Entry))
    (k : String) (e : Entry)
    (ha : m.all (fun q => p q.1) = true) (hk : p k = true) :
    (bucketAdd m k e).all (fun q => p q.1) = true := by
  unfold bucketAdd
  by_cases hm : dictMem m k = true
  · rw [if_pos hm, List.all_map]
    rw [List.all_eq_true] at ha ⊢
    intro x hx
    have hpx := ha x hx
    simp only [Function.comp]
    split
    · exact hpx
    · exact hpx
  · rw [if_neg hm, List.all_append, ha]
    simp [hk]

theorem foldl_bucketAdd_keys (p : String → Bool) :
    ∀ (deps : List Entry) (acc : List (String × List Entry)),
      acc.all (fun q => p q.1) = true →
      deps.all (fun e => p (typeName e)) = true →
      ((deps.foldl (fun res i => bucketAdd res (typeName i) i) acc).all
        (fun q => p q.1)) = true
  | [], _, ha, _ => ha
  | e :: deps, acc, ha, hd => by
    rw [List.all_cons, Bool.and_eq_true] at hd
    rw [List.foldl_cons]
    exact foldl_bucketAdd_keys p deps _ (bucketAdd_keys p acc (typeName e) e ha hd.1) hd.2

theorem dictGet_dictRemove_ne {α : Type} (m : List (String × α)) (k t : String)
    (h : t ≠ k) : dictGet (dictRemove m k) t = dictGet m t := by
  induction m with
  | nil => rfl
  | cons q m ih =>
    obtain ⟨pk, pv⟩ := q
    unfold dictRemove at ih ⊢
    rw [List.filter_cons]
    dsimp only
    by_cases hpk : pk = k
    · rw [if_neg (show ¬ ((pk != k) = true) by simp [hpk]), ih,
          dictGet_cons, if_neg (fun hh => h (hh.symm.trans hpk))]
    · rw [if_pos (show (pk != k) = true by simp [hpk]), dictGet_cons, dictGet_cons, ih]

end conda2pixi

namespace conda2pixi

theorem strsOnly_cons_str (s : String) (l : List Entry) :
    strsOnly (Entry.str s :: l) = s :: strsOnly l := rfl

theorem strsOnly_cons_dict (d : YDict) (l : List Entry) :
    strsOnly (Entry.dict d :: l) = strsOnly l := rfl

theorem strsOnly_cons_other (t : String) (l : List Entry) :
    strsOnly (Entry.other t :: l) = strsOnly l := rfl

theorem dictsOnly_cons_str (s : String) (l : List Entry) :
    dictsOnly (Entry.str s :: l) = dictsOnly l := rfl

theorem dictsOnly_cons_dict (d : YDict) (l : List Entry) :
    dictsOnly (Entry.dict d :: l) = d :: dictsOnly l := rfl

theorem dictsOnly_cons_other (t : String) (l : List Entry) :
    dictsOnly (Entry.other t :: l) = dictsOnly l := rfl

theorem strsOnly_filter (deps : List Entry) :
    strsOnly (deps.filter (fun e => typeName e == "str")) = strsOnly deps := by
  induction deps with
  | nil => rfl
  | cons e deps ih =>
    rw [List.filter_cons]
    cases e with
    | str s =>
      rw [if_pos (show (typeName (Entry.str s) == "str") = true from rfl),
          strsOnly_cons_str, strsOnly_cons_str, ih]
    | dict d =>
      rw [if_neg (show ¬ ((typeName (Entry.dict d) == "str") = true) from
            fun hh => Bool.false_ne_true hh), strsOnly_cons_dict]
      exact ih
    | other t =>
      by_cases h : (typeName (Entry.other t) == "str") = true
      · rw [if_pos h, strsOnly_cons_other, strsOnly_cons_other, ih]
      · rw [if_neg h, strsOnly_cons_other]
        exact ih

theorem dictsOnly_filter (deps : List Entry) :
    dictsOnly (deps.filter (fun e => typeName e == "dict")) = dictsOnly deps := by
  induction deps with
  | nil => rfl
  | cons e deps ih =>
    rw [List.filter_cons]
    cases e with
    | str s =>
      rw [if_neg (show ¬ ((typeName (Entry.str s) == "dict") = true) from
            fun hh => Bool.false_ne_true hh), dictsOnly_cons_str]
      exact ih
    | dict d =>
      rw [if_pos (show (typeName (Entry.dict d) == "dict") = true from rfl),
          dictsOnly_cons_dict, dictsOnly_cons_dict, ih]
    | other t =>
      by_cases h : (typeName (Entry.other t) == "dict") = true
      · rw [if_pos h, dictsOnly_cons_other, dictsOnly_cons_other, ih]
      · rw [if_neg h, dictsOnly_cons_other]
        exact ih

theorem any_str_of_any_isStr {deps : List Entry} (h : deps.any isStr = true) :
    deps.any (fun e => typeName e == "str") = true := by
  rw [List.any_eq_true] at h ⊢
  obtain ⟨e, he, hp⟩ := h
  cases e with
  | str s => exact ⟨.str s, he, rfl⟩
  | dict d => exact absurd hp (fun hh => Bool.false_ne_true hh)
  | other t => exact absurd hp (fun hh => Bool.false_ne_true hh)

theorem any_dict_of_dictsOnly_ne_nil {deps : List Entry} (h : dictsOnly deps ≠ []) :
    deps.any (fun e => typeName e == "dict") = true := by
  induction deps with
  | nil => exact absurd rfl h
  | cons e deps ih =>
    cases e with
    | str s =>
      rw [List.any_cons]
      have hne : dictsOnly deps ≠ [] := by
        rw [dictsOnly_cons_str] at h
        exact h
      rw [ih hne]
      simp
    | dict d =>
      rw [List.any_cons]
      rw [show (typeName (Entry.dict d) == "dict") = true from rfl]
      rfl
    | other t =>
      rw [List.any_cons]
      have hne : dictsOnly deps ≠ [] := by
        rw [dictsOnly_cons_other] at h
        exact h
      rw [ih hne]
      simp

theorem typeName_str_or_dict_of_shape {deps : List Entry}
    (h : deps.all (fun e => isStr e || isDict e) = true) :
    deps.all (fun e => typeName e == "str" || typeName e == "dict") = true := by
  rw [List.all_eq_true] at h ⊢
  intro e he
  cases e with
  | str s => rfl
  | dict d => rfl
  | other t =>
    exact absurd (h (.other t) he) (fun hh => Bool.false_ne_true hh)

theorem pip_dict_shape (d : YDict) (h : isPipOnlyDict d = true) :
    ∃ v, d = [("pip", v)] := by
  match d with
  | [] => exact absurd h (by decide)
  | [(k, v)] =>
    refine ⟨v, ?_⟩
    have hk : k = "pip" := eq_of_beq h
    rw [hk]
  | (k, v) :: q :: rest => exact absurd h (fun hh => Bool.false_ne_true hh)

theorem dictPop_single_pip (v : YVal) :
    dictPop ([("pip", v)] : YDict) "pip" = some (v, []) := by
  simp [dictPop, dictGet, dictRemove, List.find?_cons, List.filter_cons]

theorem pip_loop_all_pip :
    ∀ (ds : List YDict) (p0 : YVal) (rem : List YDict) (dlast : YDict) (vlast : YVal),
      ds.all isPipOnlyDict = true →
      ds.getLast? = some dlast →
      dictGet dlast "pip" = some vlast →
      pip_loop p0 rem ds = .ok (vlast, rem)
  | [], _, _, _, _, _, hl, _ => by simp at hl
  | d :: ds, p0, rem, dlast, vlast, hall, hl, hv => by
    rw [List.all_cons, Bool.and_eq_true] at hall
    obtain ⟨v, rfl⟩ := pip_dict_shape d hall.1
    unfold pip_loop
    rw [dictPop_single_pip]
    dsimp only
    rw [if_neg (fun hh => hh rfl)]
    cases ds with
    | nil =>
      have hd : dlast = [("pip", v)] := by
        simp at hl
        exact hl.symm
      subst hd
      have hvv : some v = some vlast := by
        rw [← hv]
        simp [dictGet, List.find?_cons]
      injection hvv with hvv
      rw [← hvv]
      rfl
    | cons d2 ds2 =>
      rw [List.getLast?_cons_cons] at hl
      exact pip_loop_all_pip (d2 :: ds2) v rem dlast vlast hall.2 hl hv

end conda2pixi

namespace conda2pixi

/-- Claim C10 (amended): for every raw dependency list made of plain strings
and of mappings that each carry only the pip marker key, holding at least one
string entry and at least two such pip mappings, the classifier raises no
error and returns the value of the LAST pip mapping as the pip-list, silently
discarding the pip lists of all earlier pip mappings; without a string entry
the KeyError of claim C2 fires first, so the claim as stated fails. -/
theorem C10_thm (deps : List Entry)
    (hshape : deps.all (fun e => isStr e || isDict e) = true)
    (hs : deps.any isStr = true)
    (hpip : (dictsOnly deps).all isPipOnlyDict = true)
    (hlen : 2 ≤ (dictsOnly deps).length)
    (dlast : YDict) (vlast : YVal)
    (hlast : (dictsOnly deps).getLast? = some dlast)
    (hv : dictGet dlast "pip" = some vlast) :
    split_conda_pip_raw deps = .ok (strsOnly deps, vlast) := by
  have hds_ne : dictsOnly deps ≠ [] := by
    intro hnil
    rw [hnil] at hlen
    exact absurd hlen (by decide)
  have hget_str : dictGet (split_by_type deps) "str" =
      some (deps.filter (fun e => typeName e == "str")) := by
    unfold split_by_type
    rw [foldl_bucketAdd_dictGet, if_pos (any_str_of_any_isStr hs)]
    rfl
  have hget_dict : dictGet (dictRemove (split_by_type deps) "str") "dict" =
      some (deps.filter (fun e => typeName e == "dict")) := by
    rw [dictGet_dictRemove_ne _ _ _ (by decide)]
    unfold split_by_type
    rw [foldl_bucketAdd_dictGet, if_pos (any_dict_of_dictsOnly_ne_nil hds_ne)]
    rfl
  have hkeys : (split_by_type deps).all
      (fun q => q.1 == "str" || q.1 == "dict") = true := by
    unfold split_by_type
    exact foldl_bucketAdd_keys (fun k => k == "str" || k == "dict") deps [] rfl
      (typeName_str_or_dict_of_shape hshape)
  have hrest2 : dictRemove (dictRemove (split_by_type deps) "str") "dict" = [] := by
    unfold dictRemove
    rw [List.filter_filter]
    rw [List.filter_eq_nil_iff]
    intro q hq
    have hk := List.all_eq_true.1 hkeys q hq
    rw [Bool.or_eq_true] at hk
    cases hk with
    | inl h1 =>
      have : q.1 = "str" := eq_of_beq h1
      simp [this]
    | inr h1 =>
      have : q.1 = "dict" := eq_of_beq h1
      simp [this]
  unfold split_conda_pip_raw
  dsimp only
  rw [show dictPop (split_by_type deps) "str" =
      some (deps.filter (fun e => typeName e == "str"),
            dictRemove (split_by_type deps) "str") from by
    unfold dictPop
    rw [hget_str]]
  dsimp only
  rw [show dictPop (dictRemove (split_by_type deps) "str") "dict" =
      some (deps.filter (fun e => typeName e == "dict"),
            dictRemove (dictRemove (split_by_type deps) "str") "dict") from by
    unfold dictPop
    rw [hget_dict]]
  dsimp only
  rw [hrest2]
  rw [if_neg (fun hh => hh rfl)]
  rw [dictsOnly_filter]
  rw [pip_loop_all_pip (dictsOnly deps) (.l []) [] dlast vlast hpip hlast hv]
  dsimp only
  rw [if_neg (fun hh => hh rfl)]
  rw [strsOnly_filter]

/-- Claim C10 witness: the amended theorem applied to a list with one string
and two pip mappings; the pip value of the second mapping wins. -/
theorem C10_witness :
    split_conda_pip_raw
      [.str "numpy", .dict [("pip", .l ["a"])], .dict [("pip", .l ["b"])]] =
      .ok (["numpy"], .l ["b"]) := by
  have h := C10_thm
    [.str "numpy", .dict [("pip", .l ["a"])], .dict [("pip", .l ["b"])]]
    (by decide) (by decide) (by decide) (by decide)
    [("pip", .l ["b"])] (.l ["b"]) (by decide) (by decide)
  exact h.trans (by decide)

/-- Claim C10 counterexample: a list of two pip mappings and no string entry
raises `KeyError` instead of succeeding, refuting the unrestricted claim. -/
theorem C10_counterexample :
    split_conda_pip_raw [.dict [("pip", .l ["a"])], .dict [("pip", .l ["b"])]] =
      .error (.keyError "str") := by decide

/-- Claim C2 (code bug): on the empty dependency list, and likewise on a list
holding only plain strings, the Type Classifier does not succeed with an empty
pip-list as the claim states: `deps_by_type.pop` raises an uncaught `KeyError`
for the missing `str` resp. `dict` bucket, because `defaultdict.pop` never
consults the default factory. -/
theorem C2_thm :
    split_conda_pip_raw [] = .error (.keyError "str") ∧
    split_conda_pip_raw [.str "numpy"] = .error (.keyError "dict") := by decide

/-- Claim C4 (code bug): on the example given by the spec, a list holding one
pip mapping and one mapping with key `extra`, the classifier raises `KeyError`
for the missing string bucket instead of the documented
`UnsupportedMappingEntry`; only when a string entry is also present does the
run reach the leftover-mapping check, which then does enumerate all offending
mappings together. -/
theorem C4_thm :
    split_conda_pip_raw [.dict [("pip", .l ["flask"])], .dict [("extra", .s "bad")]] =
      .error (.keyError "str") ∧
    split_conda_pip_raw
      [.str "x", .dict [("a", .s "1")], .dict [("b", .s "2")]] =
      .error (.tooManyDicts [[("a", .s "1")], [("b", .s "2")]]) := by decide

end conda2pixi

namespace conda2pixi

theorem ccStep_fst (acc : List String × List (String × List String) × List (String × Feature))
    (d : DocResult) : (ccStep acc d).1 = acc.1 ++ d.chans := rfl

theorem foldl_ccStep_fst :
    ∀ (docs : List DocResult) (acc : List String × List (String × List String) × List (String × Feature)),
      (docs.foldl ccStep acc).1 = acc.1 ++ (docs.map DocResult.chans).flatten
  | [], acc => by simp
  | d :: docs, acc => by
    rw [List.foldl_cons, foldl_ccStep_fst docs _, List.map_cons, List.flatten_cons,
        ccStep_fst, List.append_assoc]

theorem foldl_ccStep_get :
    ∀ (docs : List DocResult)
      (acc : List String × List (String × List String) × List (String × Feature))
      (t : String),
      (∀ d ∈ docs, d.name ≠ t) →
      dictGet (docs.foldl ccStep acc).2.1 t = dictGet acc.2.1 t ∧
      dictGet (docs.foldl ccStep acc).2.2 t = dictGet acc.2.2 t
  | [], _, _, _ => ⟨rfl, rfl⟩
  | d :: docs, acc, t, h => by
    rw [List.foldl_cons]
    have hd : d.name ≠ t := h d (List.mem_cons_self d docs)
    have ih := foldl_ccStep_get docs (ccStep acc d) t
      (fun x hx => h x (List.mem_cons_of_mem d hx))
    refine ⟨ih.1.trans ?_, ih.2.trans ?_⟩
    · exact dictGet_dictInsert_ne _ _ _ _ (fun hh => hd hh.symm)
    · exact dictGet_dictInsert_ne _ _ _ _ (fun hh => hd hh.symm)

theorem foldl_ccStep_mem :
    ∀ (docs : List DocResult)
      (acc : List String × List (String × List String) × List (String × Feature))
      (d : DocResult),
      d ∈ docs →
      (docs.map DocResult.name).Nodup →
      dictGet (docs.foldl ccStep acc).2.1 d.name = some [d.name] ∧
      dictGet (docs.foldl ccStep acc).2.2 d.name = some ⟨d.conda, d.pip⟩
  | [], _, d, hd, _ => absurd hd (List.not_mem_nil d)
  | d0 :: docs, acc, d, hd, hnd => by
    rw [List.map_cons, List.nodup_cons] at hnd
    rw [List.foldl_cons]
    cases List.mem_cons.1 hd with
    | inl heq =>
      subst heq
      have hpres := foldl_ccStep_get docs (ccStep acc d) d.name
        (fun x hx hxn => hnd.1 (hxn ▸ List.mem_map_of_mem DocResult.name hx))
      refine ⟨hpres.1.trans ?_, hpres.2.trans ?_⟩
      · exact dictGet_dictInsert_self _ _ _
      · exact dictGet_dictInsert_self _ _ _
    | inr hmem =>
      exact foldl_ccStep_mem docs (ccStep acc d0) d hmem hnd.2

/-- Claim C7 (amended): for every Document Result whose name is unique in the
input list, the environments mapping maps the document name to the singleton
list holding exactly that name, and the feature entry holds the native and
pip dependency mappings of that document unchanged. When several documents
share a name, a later document silently overwrites the feature entry of an
earlier one, so the claim as stated fails. -/
theorem C7_thm (docs : List DocResult) (d : DocResult)
    (hd : d ∈ docs) (hnd : (docs.map DocResult.name).Nodup) :
    dictGet (collect_and_convert docs).2.1 d.name = some [d.name] ∧
    dictGet (collect_and_convert docs).2.2 d.name = some ⟨d.conda, d.pip⟩ := by
  unfold collect_and_convert
  dsimp only
  exact foldl_ccStep_mem docs ([], [], []) d hd hnd

/-- Claim C7 witness: the amended theorem applied to two distinctly named
documents. -/
theorem C7_witness :
    dictGet (collect_and_convert
        [⟨"e1", [], [("numpy", "1.2.*")], []⟩, ⟨"e2", [], [], [("flask", "*")]⟩]).2.1 "e1" =
      some ["e1"] ∧
    dictGet (collect_and_convert
        [⟨"e1", [], [("numpy", "1.2.*")], []⟩, ⟨"e2", [], [], [("flask", "*")]⟩]).2.2 "e1" =
      some ⟨[("numpy", "1.2.*")], []⟩ :=
  C7_thm
    [⟨"e1", [], [("numpy", "1.2.*")], []⟩, ⟨"e2", [], [], [("flask", "*")]⟩]
    ⟨"e1", [], [("numpy", "1.2.*")], []⟩ (by decide) (by decide)

/-- Claim C7 counterexample: two documents named `a` with different native
dependencies; the feature entry under `a` holds the dependencies of the
second document, not those of the first, so the first document processed has
lost its feature entry. -/
theorem C7_counterexample :
    dictGet (collect_and_convert
        [⟨"a", [], [("numpy", "1")], []⟩, ⟨"a", [], [("scipy", "2")], []⟩]).2.2 "a" =
      some ⟨[("scipy", "2")], []⟩ ∧
    (some (⟨[("scipy", "2")], []⟩ : Feature) ≠ some ⟨[("numpy", "1")], []⟩) := by decide

/-- Claim C5: the global channel set of the Manifest Assembler equals the
concatenation of all per-document channel lists deduplicated and sorted
lexicographically ascending (stated as: sorted, duplicate-free, and with the
same member set), and when that result is empty it is replaced by the single
default channel list containing only `conda-forge`. -/
theorem C5_thm (docs : List DocResult) :
    ((docs.map DocResult.chans).flatten = [] →
      (collect_and_convert docs).1 = ["conda-forge"]) ∧
    ((docs.map DocResult.chans).flatten ≠ [] →
      (collect_and_convert docs).1.Sorted (· ≤ ·) ∧
      (collect_and_convert docs).1.Nodup ∧
      (collect_and_convert docs).1.toFinset =
        (docs.map DocResult.chans).flatten.toFinset) := by
  have hfst : (docs.foldl ccStep ([], [], [])).1 = (docs.map DocResult.chans).flatten :=
    (foldl_ccStep_fst docs ([], [], [])).trans rfl
  constructor
  · intro h
    unfold collect_and_convert
    dsimp only
    rw [hfst, h]
    rfl
  · intro h
    unfold collect_and_convert
    dsimp only
    rw [hfst]
    have hd_ne : (docs.map DocResult.chans).flatten.dedup ≠ [] :=
      fun hh => h ((List.dedup_eq_nil _).1 hh)
    have hs_ne : List.insertionSort (· ≤ ·) (docs.map DocResult.chans).flatten.dedup ≠ [] := by
      intro hh
      have hp := List.perm_insertionSort (· ≤ ·) (docs.map DocResult.chans).flatten.dedup
      rw [hh] at hp
      exact hd_ne (hp.symm.eq_nil)
    rw [if_neg hs_ne]
    refine ⟨List.sorted_insertionSort _ _, ?_, ?_⟩
    · exact ((List.perm_insertionSort _ _).nodup_iff).2 (List.nodup_dedup _)
    · ext a
      simp [List.mem_toFinset, List.mem_insertionSort, List.mem_dedup]

/-- Claim C5 witness: the theorem applied to two documents with channel lists
`conda-forge` and `bioconda, conda-forge`. -/
theorem C5_witness :
    (collect_and_convert
        [⟨"e1", ["conda-forge"], [], []⟩, ⟨"e2", ["bioconda", "conda-forge"], [], []⟩]).1.Sorted
        (· ≤ ·) ∧
    (collect_and_convert
        [⟨"e1", ["conda-forge"], [], []⟩, ⟨"e2", ["bioconda", "conda-forge"], [], []⟩]).1.Nodup ∧
    (collect_and_convert
        [⟨"e1", ["conda-forge"], [], []⟩, ⟨"e2", ["bioconda", "conda-forge"], [], []⟩]).1.toFinset =
      (([⟨"e1", ["conda-forge"], [], []⟩,
         ⟨"e2", ["bioconda", "conda-forge"], [], []⟩] : List DocResult).map
          DocResult.chans).flatten.toFinset :=
  (C5_thm
    [⟨"e1", ["conda-forge"], [], []⟩, ⟨"e2", ["bioconda", "conda-forge"], [], []⟩]).2
    (by decide)

/-- Claim C8: the Manifest Assembler is deterministic in its input: two runs
over equal Document Result lists and equal workspace names produce identical
manifests (the model is a pure function, so this holds by reflexivity). -/
theorem C8_thm (docs1 docs2 : List DocResult) (n1 n2 : String)
    (h : docs1 = docs2) (hn : n1 = n2) :
    build_pixi_toml n1 (collect_and_convert docs1).1 (collect_and_convert docs1).2.1
        (collect_and_convert docs1).2.2 =
      build_pixi_toml n2 (collect_and_convert docs2).1 (collect_and_convert docs2).2.1
        (collect_and_convert docs2).2.2 := by
  subst h
  subst hn
  rfl

/-- Claim C8 witness: the theorem applied to a concrete one-document list. -/
theorem C8_witness :
    build_pixi_toml "ws"
        (collect_and_convert [⟨"e1", ["conda-forge"], [("numpy", "1.2.*")], []⟩]).1
        (collect_and_convert [⟨"e1", ["conda-forge"], [("numpy", "1.2.*")], []⟩]).2.1
        (collect_and_convert [⟨"e1", ["conda-forge"], [("numpy", "1.2.*")], []⟩]).2.2 =
      build_pixi_toml "ws"
        (collect_and_convert [⟨"e1", ["conda-forge"], [("numpy", "1.2.*")], []⟩]).1
        (collect_and_convert [⟨"e1", ["conda-forge"], [("numpy", "1.2.*")], []⟩]).2.1
        (collect_and_convert [⟨"e1", ["conda-forge"], [("numpy", "1.2.*")], []⟩]).2.2 :=
  C8_thm _ _ _ _ rfl rfl

end conda2pixi
